import Mathlib

/-!
Verification of the Ambari dynamic-inventory plugin
(src/inventory/ambari.py) against its specification.

The Python module is shallowly embedded below.  Python values that flow
through the configuration dictionary and the inventory variables are
modelled by the type Val; Python truthiness by truthy; the string method
lower by pyLower; str.startswith by pyStartswith; sorted(set(l)) on
strings by sortedSet, built on an executable lexicographic order that is
proved equivalent to the Mathlib order on String.  The Ansible inventory
sink (add_group, add_child, add_host, set_variable) is an external
collaborator; the projector is modelled as the list of sink operations
it issues, in program order.
-/

/-- Dynamically typed Python values as they occur in this module:
strings, integers, booleans, None, and (nested) dictionaries with
string keys. -/
inductive Val where
  | str : String → Val
  | int : Int → Val
  | bool : Bool → Val
  | none : Val
  | dict : List (String × Val) → Val

/-- Python truthiness for Val, as used by `x or default` and by
`if self.config.get(k):`. -/
def truthy : Val → Bool
  | Val.str s => s != ""
  | Val.int n => n != 0
  | Val.bool b => b
  | Val.none => false
  | Val.dict d => !d.isEmpty

/-- One tier-resolution step, from InventoryModule._set_config:
the environment variable wins when present (environment values are
always strings); otherwise the file value `or` the default, where a
falsy file value falls through to the default. -/
def set_config (env : Option String) (fileVal : Val) (dflt : Val) : Val :=
  match env with
  | some v => Val.str v
  | Option.none => if truthy fileVal then fileVal else dflt

/-- The resolved configuration dictionary built by
InventoryModule._parse_config (its eight fixed keys). -/
structure Config where
  hostname : Val
  port : Val
  username : Val
  password : Val
  protocol : Val
  validate_ssl : Val
  ansible_user : Val
  ansible_ssh_pass : Val

/-- InventoryModule._parse_config: resolve every key with _set_config
from the process environment `env`, the file options `getOpt`
(get_option returns Val.none for a key the file does not provide), and
the hard-coded defaults of the source. -/
def parse_config (env : String → Option String) (getOpt : String → Val) : Config :=
  { hostname := set_config (env "AMBARI_HOSTNAME") (getOpt "hostname") (Val.str "ambari-host.local")
  , port := set_config (env "AMBARI_PORT") (getOpt "port") (Val.int 8443)
  , username := set_config (env "AMBARI_USERNAME") (getOpt "username") (Val.str "admin")
  , password := set_config (env "AMBARI_PASSWORD") (getOpt "password") (Val.str "admin")
  , protocol := set_config (env "AMBARI_PROTOCOL") (getOpt "protocol") (Val.str "http")
  , validate_ssl := set_config (env "AMBARI_VALIDATE_SSL") (getOpt "validate_ssl") (Val.bool false)
  , ansible_user := set_config (env "ANSIBLE_USER") (getOpt "ansible_user") Val.none
  , ansible_ssh_pass := set_config (env "ANSIBLE_SSH_PASS") (getOpt "ansible_ssh_pass") Val.none }

/-- Executable lexicographic comparison of char lists by code point,
the comparison Python uses on str.  Equivalent to the Mathlib list
order (listCharLt_iff below). -/
def listCharLt : List Char → List Char → Bool
  | _, [] => false
  | [], _ :: _ => true
  | a :: as, b :: bs => if a < b then true else if b < a then false else listCharLt as bs

/-- Executable strict order on String, matching Python string `<`. -/
def pyStrLt (a b : String) : Bool := listCharLt a.data b.data

/-- Executable order on String, matching Python string `<=`. -/
def pyStrLe (a b : String) : Bool := !pyStrLt b a

/-- The order relation used by the model of Python sorted. -/
def strle (a b : String) : Prop := pyStrLe a b = true

instance : DecidableRel strle := fun s t => inferInstanceAs (Decidable (pyStrLe s t = true))

/-- Model of Python sorted(set(l)) for a list of strings: the distinct
elements in lexicographic order. -/
def sortedSet (l : List String) : List String := List.insertionSort strle l.dedup

/-- Model of Python str.lower (the names in this module are ASCII). -/
def pyLower (s : String) : String := String.mk (s.data.map Char.toLower)

/-- Model of Python str.startswith. -/
def pyStartswith (s pre : String) : Bool := pre.data.isPrefixOf s.data

/-- Model of Python str() for the scalar values this module renders
into URLs (hostname and port). -/
def pyStr : Val → String
  | Val.str s => s
  | Val.int n => toString n
  | Val.bool b => if b then "True" else "False"
  | Val.none => "None"
  | Val.dict _ => ""

/-- Model of Python int() for the values the port key can hold; the
remaining arms are never evaluated by the claims (int(None) raises in
Python). -/
def pyInt : Val → Int
  | Val.int n => n
  | Val.str s => (s.toInt?).getD 0
  | Val.bool b => if b then 1 else 0
  | Val.none => 0
  | Val.dict _ => 0

/-- A cluster record as returned by the client listing. -/
structure Cluster where
  cluster_name : String

/-- A component record: its own name and the name of its owning
service. -/
structure Component where
  component_name : String
  service_name : String

/-- A service listing entry: the nominal service name and the component
records reported under it. -/
structure Service where
  service_name : String
  components : List Component

/-- A host record from the cluster host listing: its name and its
health status (the status field is present in the data but never read
by this variant). -/
structure HostRec where
  host_name : String
  status : String

/-- One `{type, properties}` object of a service-configuration
response. -/
structure ConfigurationEntry where
  type : String
  properties : Val

/-- One element of the `items` array of a service-configuration
response. -/
structure ServiceConfigItem where
  configurations : List ConfigurationEntry

/-- The Ambari client facade, modelled as the data its read-only
operations return.  Functions take the same name parameters the
corresponding Python client calls take. -/
structure AmbariClient where
  clusters : List Cluster
  services : String → List Service
  serviceComponents : String → String → List Component
  clusterHosts : String → List HostRec
  hostFields : String → List (String × Val)
  hostComponents : String → String → List Component

/-- InventoryModule._get_cluster_name: return the name of the first
cluster of the listing; the for loop falls through and the function
returns None when the listing is empty. -/
def get_cluster_name (client : AmbariClient) : Option String :=
  match client.clusters with
  | [] => Option.none
  | c :: _ => some c.cluster_name

/-- The service names collected by InventoryModule._get_services_name:
for every service listing entry, the owning service name of each of its
components. -/
def collect_service_names : List Service → List String
  | [] => []
  | s :: rest => s.components.map (fun c => c.service_name) ++ collect_service_names rest

/-- InventoryModule._get_services_name: sorted(set(...)) of the owning
service names of all components of all service listing entries. -/
def get_services_name (client : AmbariClient) (cluster_name : String) : List String :=
  sortedSet (collect_service_names (client.services cluster_name))

/-- InventoryModule._get_components_name: sorted(set(...)) of the
component names reported for one service. -/
def get_components_name (client : AmbariClient) (cluster_name service_name : String) : List String :=
  sortedSet ((client.serviceComponents cluster_name service_name).map (fun c => c.component_name))

/-- InventoryModule._get_hosts_name: sorted(set(...)) of the names of
all hosts of the cluster listing, with no condition on the status
field. -/
def get_hosts_name (client : AmbariClient) (cluster_name : String) : List String :=
  sortedSet ((client.clusterHosts cluster_name).map (fun h => h.host_name))

/-- One operation issued to the Ansible inventory sink. -/
inductive SinkOp where
  | add_group (name : String)
  | add_child (parent child : String)
  | add_host (name : String) (group : Option String) (vars : Option (List (String × Val)))
  | set_variable (host key : String) (value : Val)

/-- The sink operations of the inner component loop of
InventoryModule._populate_groups for one service: add the component
group, and link it under the service group when the lowercase names
differ. -/
def component_group_ops (service_name : String) : List String → List SinkOp
  | [] => []
  | c :: rest =>
      SinkOp.add_group (pyLower c) ::
        (if pyLower service_name ≠ pyLower c then
          SinkOp.add_child (pyLower service_name) (pyLower c) :: component_group_ops service_name rest
        else component_group_ops service_name rest)

/-- InventoryModule._populate_groups as the list of sink operations it
issues, in program order. -/
def populate_groups (client : AmbariClient) (cluster_name : String) : List String → List SinkOp
  | [] => []
  | s :: rest =>
      SinkOp.add_group (pyLower s) ::
        (component_group_ops s (get_components_name client cluster_name s)
          ++ populate_groups client cluster_name rest)

/-- Python dictionary assignment d[k] = v on the association-list
model: replace the first binding of k, or append a new one. -/
def dictInsert (d : List (String × Val)) (k : String) (v : Val) : List (String × Val) :=
  match d with
  | [] => [(k, v)]
  | (k₀, v₀) :: rest => if k₀ = k then (k, v) :: rest else (k₀, v₀) :: dictInsert rest k v

/-- The inner dictionary built for one item of a service-configuration
response: type mapped to properties, in order. -/
def item_configuration_json (item : ServiceConfigItem) : List (String × Val) :=
  item.configurations.foldl (fun acc c => dictInsert acc c.type c.properties) []

/-- The per-service dictionary of InventoryModule._populate_hosts: the
loop rebinds configurations_json on every item, so only the last item
survives, and an empty items array leaves the empty dictionary. -/
def service_configurations_json (items : List ServiceConfigItem) : List (String × Val) :=
  items.foldl (fun _ item => item_configuration_json item) []

/-- The per-host configurations bundle of
InventoryModule._populate_hosts: for every service name in order, bind
its lowercase name to the per-service dictionary.  `svcItems` gives the
items array of the service-configuration lookup for a cluster and a
service. -/
def host_configurations (svcItems : String → String → List ServiceConfigItem)
    (cluster_name : String) (services_name : List String) : List (String × Val) :=
  services_name.foldl
    (fun acc service_name =>
      dictInsert acc (pyLower service_name)
        (Val.dict (service_configurations_json (svcItems cluster_name service_name)))) []

/-- The filter of the host-detail copy loop of
InventoryModule._populate_hosts: a field is copied unless its name
starts with "host", starts with "last", or equals "desired_configs". -/
def field_kept (f : String) : Bool :=
  !(pyStartswith f "host") && !(pyStartswith f "last") && (f != "desired_configs")

/-- The sink operations of the host-detail copy loop: one set_variable
per field that passes the filter, in field order. -/
def host_detail_ops (host_name : String) : List (String × Val) → List SinkOp
  | [] => []
  | (f, v) :: rest =>
      if field_kept f then SinkOp.set_variable host_name f v :: host_detail_ops host_name rest
      else host_detail_ops host_name rest

/-- The sink operations of the per-component loop at the end of
InventoryModule._populate_hosts: re-add the host into each component
group (lowercase), passing the fixed variables mapping
{'toto': 'tata'}. -/
def host_component_ops (host_name : String) : List Component → List SinkOp
  | [] => []
  | comp :: rest =>
      SinkOp.add_host host_name (some (pyLower comp.component_name))
        (some [("toto", Val.str "tata")]) :: host_component_ops host_name rest

/-- All sink operations InventoryModule._populate_hosts issues for one
host, in program order: add the host, set its configurations bundle,
set ansible_host to the host name, copy the filtered detail fields, set
the ssh overrides when truthy, then add the host to its component
groups. -/
def host_ops (cfg : Config) (client : AmbariClient)
    (svcItems : String → String → List ServiceConfigItem)
    (cluster_name : String) (services_name : List String) (host_name : String) : List SinkOp :=
  SinkOp.add_host host_name Option.none Option.none ::
  SinkOp.set_variable host_name "configurations"
      (Val.dict (host_configurations svcItems cluster_name services_name)) ::
  SinkOp.set_variable host_name "ansible_host" (Val.str host_name) ::
  (host_detail_ops host_name (client.hostFields host_name)
    ++ (if truthy cfg.ansible_user then
          [SinkOp.set_variable host_name "ansible_user" cfg.ansible_user] else [])
    ++ (if truthy cfg.ansible_ssh_pass then
          [SinkOp.set_variable host_name "ansible_ssh_pass" cfg.ansible_ssh_pass] else [])
    ++ host_component_ops host_name (client.hostComponents cluster_name host_name))

/-- InventoryModule._populate_hosts as the list of sink operations it
issues, in program order over the host names. -/
def populate_hosts (cfg : Config) (client : AmbariClient)
    (svcItems : String → String → List ServiceConfigItem)
    (cluster_name : String) (services_name : List String) : List String → List SinkOp
  | [] => []
  | h :: rest =>
      host_ops cfg client svcItems cluster_name services_name h
        ++ populate_hosts cfg client svcItems cluster_name services_name rest

/-- InventoryModule._populate_ambari: group ambari_server, the
configured endpoint host as member, and the resolved connection data as
the ambari_config variable. -/
def populate_ambari (cfg : Config) (cluster_name : String) : List SinkOp :=
  [ SinkOp.add_group "ambari_server"
  , SinkOp.add_host (pyStr cfg.hostname) (some "ambari_server") Option.none
  , SinkOp.set_variable (pyStr cfg.hostname) "ambari_config"
      (Val.dict
        [ ("protocol", cfg.protocol)
        , ("port", cfg.port)
        , ("username", cfg.username)
        , ("password", cfg.password)
        , ("validate_ssl", cfg.validate_ssl)
        , ("cluster_name", Val.str cluster_name) ]) ]

/-- InventoryModule._populate_localhost: fixed local-execution entry. -/
def populate_localhost : List SinkOp :=
  [ SinkOp.add_group "local"
  , SinkOp.add_host "localhost" (some "local") Option.none
  , SinkOp.set_variable "localhost" "ansible_host" (Val.str "127.0.0.1")
  , SinkOp.set_variable "localhost" "ansible_connection" (Val.str "local")
  , SinkOp.set_variable "localhost" "ansible_become" (Val.str "false") ]

/-- An HTTP response as seen by the service-configuration lookup: the
status code and the (already deserialized) JSON body. -/
structure HttpResponse where
  status : Nat
  body : Val

/-- requests.Response.ok: true exactly when raise_for_status would not
raise, that is when the status is outside [400, 600). -/
def response_ok (r : HttpResponse) : Bool := !(400 ≤ r.status && r.status < 600)

/-- The error raise_for_status raises on a non-ok response; it carries
the status code and, through the attached response, the body. -/
structure RemoteServiceError where
  status : Nat
  body : Val

/-- The protocol string computed at the top of
InventoryModule._get_service_current_configuration: https exactly when
the configured protocol value is the string https, otherwise http. -/
def request_protocol (cfg : Config) : String :=
  match cfg.protocol with
  | Val.str s => if s = "https" then "https" else "http"
  | _ => "http"

/-- An outgoing HTTP request of the module: URL, headers, Basic-auth
credentials, and the TLS verification flag passed to requests. -/
structure HttpRequest where
  url : String
  headers : List (String × String)
  username : Val
  password : Val
  verify : Bool

/-- The request InventoryModule._get_service_current_configuration
issues: the versioned configuration-history URL, the X-Requested-By
header, Basic auth from the resolved credentials, and verify=False
written literally in the source. -/
def service_config_request (cfg : Config) (cluster_name service_name : String) : HttpRequest :=
  { url := request_protocol cfg ++ "://" ++ pyStr cfg.hostname ++ ":" ++ pyStr cfg.port
      ++ "/api/v1/clusters/" ++ cluster_name
      ++ "/configurations/service_config_versions?service_name.in("
      ++ service_name ++ ")&is_current=true"
  , headers := [("X-Requested-By", "ambari")]
  , username := cfg.username
  , password := cfg.password
  , verify := false }

/-- The result handling of
InventoryModule._get_service_current_configuration: return the parsed
body when the response is ok, otherwise raise_for_status raises an
error carrying the status and the response. -/
def get_service_current_configuration (r : HttpResponse) : Except RemoteServiceError Val :=
  if response_ok r then Except.ok r.body else Except.error ⟨r.status, r.body⟩

/-- The constructor arguments InventoryModule._initialize_client passes
to the Ambari client: every connection parameter of the resolved
configuration, with the port cast by int(). -/
structure AmbariClientParams where
  hostname : Val
  port : Int
  username : Val
  password : Val
  protocol : Val
  validate_ssl : Val

/-- InventoryModule._initialize_client, client construction part. -/
def initialize_client (cfg : Config) : AmbariClientParams :=
  { hostname := cfg.hostname
  , port := pyInt cfg.port
  , username := cfg.username
  , password := cfg.password
  , protocol := cfg.protocol
  , validate_ssl := cfg.validate_ssl }

/-- The warning-suppression side effect of
InventoryModule._initialize_client: urllib3.disable_warnings() runs
exactly when the resolved validate_ssl value compares equal (in the
Python sense) to False. -/
def ssl_warnings_disabled (cfg : Config) : Bool :=
  match cfg.validate_ssl with
  | Val.bool b => !b
  | Val.int n => n == 0
  | _ => false

/-- The executable char-list comparison agrees with the Mathlib
lexicographic order. -/
theorem listCharLt_iff (as bs : List Char) : listCharLt as bs = true ↔ List.Lex (· < ·) as bs := by
  induction as generalizing bs with
  | nil =>
    cases bs with
    | nil => exact iff_of_false (by simp [listCharLt]) (List.Lex.not_nil_right _ _)
    | cons b bs => exact iff_of_true (by simp [listCharLt]) List.Lex.nil
  | cons a as ih =>
    cases bs with
    | nil => exact iff_of_false (by simp [listCharLt]) (List.Lex.not_nil_right _ _)
    | cons b bs =>
      simp only [listCharLt]
      by_cases hab : a < b
      · simp only [if_pos hab]
        exact iff_of_true (by simp) (List.Lex.rel hab)
      · simp only [if_neg hab]
        by_cases hba : b < a
        · simp only [if_pos hba]
          refine iff_of_false (by simp) ?_
          intro h
          cases h with
          | cons h => exact absurd hba (lt_irrefl a)
          | rel h => exact absurd h hab
        · simp only [if_neg hba]
          have heq : a = b := le_antisymm (not_lt.mp hba) (not_lt.mp hab)
          subst heq
          rw [ih bs]
          constructor
          · intro h; exact List.Lex.cons h
          · intro h
            cases h with
            | cons h => exact h
            | rel h => exact absurd h hab

/-- The executable strict string order agrees with the Mathlib one. -/
theorem pyStrLt_iff (a b : String) : pyStrLt a b = true ↔ a < b := by
  rw [String.lt_iff_toList_lt]
  exact listCharLt_iff a.data b.data

/-- The executable string order agrees with the Mathlib one. -/
theorem pyStrLe_iff (a b : String) : pyStrLe a b = true ↔ a ≤ b := by
  have h1 : pyStrLe a b = true ↔ ¬ (pyStrLt b a = true) := by
    unfold pyStrLe; cases pyStrLt b a <;> simp
  rw [h1, pyStrLt_iff b a]
  exact not_lt

instance : IsTotal String strle :=
  ⟨fun a b => (le_total a b).imp (pyStrLe_iff a b).mpr (pyStrLe_iff b a).mpr⟩

instance : IsTrans String strle :=
  ⟨fun a b c hab hbc =>
    (pyStrLe_iff a c).mpr (le_trans ((pyStrLe_iff a b).mp hab) ((pyStrLe_iff b c).mp hbc))⟩

/-- sortedSet output is sorted by the standard string order. -/
theorem sortedSet_sorted (l : List String) : List.Sorted (· ≤ ·) (sortedSet l) :=
  (List.sorted_insertionSort strle l.dedup).imp (fun h => (pyStrLe_iff _ _).mp h)

/-- sortedSet output has no duplicates. -/
theorem sortedSet_nodup (l : List String) : (sortedSet l).Nodup :=
  (List.perm_insertionSort strle l.dedup).nodup_iff.mpr l.nodup_dedup

/-- sortedSet preserves the element set. -/
theorem mem_sortedSet {a : String} {l : List String} : a ∈ sortedSet l ↔ a ∈ l := by
  unfold sortedSet
  rw [(List.perm_insertionSort strle l.dedup).mem_iff, List.mem_dedup]

/-- Membership in the collected owning service names. -/
theorem mem_collect_service_names {n : String} {services : List Service} :
    n ∈ collect_service_names services ↔
      ∃ s, s ∈ services ∧ ∃ c, c ∈ s.components ∧ c.service_name = n := by
  induction services with
  | nil => simp [collect_service_names]
  | cons s rest ih =>
    simp only [collect_service_names, List.mem_append, List.mem_map, List.mem_cons, ih]
    constructor
    · intro h
      rcases h with h | h
      · rcases h with ⟨c, hc, hcn⟩
        exact ⟨s, Or.inl rfl, c, hc, hcn⟩
      · rcases h with ⟨s₀, hs₀, c, hc, hcn⟩
        exact ⟨s₀, Or.inr hs₀, c, hc, hcn⟩
    · intro h
      rcases h with ⟨s₀, hs₀ | hs₀, c, hc, hcn⟩
      · exact Or.inl ⟨c, hs₀ ▸ hc, hcn⟩
      · exact Or.inr ⟨s₀, hs₀, c, hc, hcn⟩

/-- Specification-side predicate for three-tier resolution of one key:
environment wins; with no environment value a truthy file value is
taken; otherwise the default. -/
def Resolves (env : Option String) (fileVal dflt res : Val) : Prop :=
  (∀ v, env = some v → res = Val.str v)
  ∧ (env = Option.none → truthy fileVal = true → res = fileVal)
  ∧ (env = Option.none → truthy fileVal = false → res = dflt)

/-- _set_config satisfies the three-tier resolution predicate. -/
theorem set_config_cases (env : Option String) (fileVal dflt : Val) :
    Resolves env fileVal dflt (set_config env fileVal dflt) := by
  refine ⟨fun v hv => ?_, fun he ht => ?_, fun he hf => ?_⟩
  · subst hv; rfl
  · subst he; simp [set_config, ht]
  · subst he; simp [set_config, hf]

/-- Constant empty environment, used at concrete resolution inputs. -/
def env_empty : String → Option String := fun _ => Option.none

/-- A configuration file that provides the falsy value 0 for the port
key and nothing else. -/
def file_zero_port : String → Val := fun k => if k = "port" then Val.int 0 else Val.none

/-- C1 counterexample: with no environment variables and a file that
provides the value 0 for the port key, the resolved port is the default
8443 and not the provided file value, so a file-provided value does not
always win over the default. -/
theorem parse_config_falsy_file_value_cex :
    file_zero_port "port" ≠ Val.none
    ∧ (parse_config env_empty file_zero_port).port = Val.int 8443
    ∧ (parse_config env_empty file_zero_port).port ≠ file_zero_port "port" := by
  refine ⟨?_, rfl, ?_⟩
  · simp [file_zero_port]
  · simp only [file_zero_port, if_pos rfl]
    intro h
    simp [parse_config, set_config, env_empty, truthy, file_zero_port] at h

/-- C1 (amended): resolution is three-tiered and applied independently
per key; the environment variable wins when set; otherwise a truthy
file value is taken; a falsy or absent file value yields the documented
default (hostname ambari-host.local, port 8443, username admin,
password admin, protocol http, validate_ssl False, ssh overrides
None). -/
theorem parse_config_resolution (env : String → Option String) (getOpt : String → Val) :
    Resolves (env "AMBARI_HOSTNAME") (getOpt "hostname") (Val.str "ambari-host.local")
      (parse_config env getOpt).hostname
    ∧ Resolves (env "AMBARI_PORT") (getOpt "port") (Val.int 8443)
      (parse_config env getOpt).port
    ∧ Resolves (env "AMBARI_USERNAME") (getOpt "username") (Val.str "admin")
      (parse_config env getOpt).username
    ∧ Resolves (env "AMBARI_PASSWORD") (getOpt "password") (Val.str "admin")
      (parse_config env getOpt).password
    ∧ Resolves (env "AMBARI_PROTOCOL") (getOpt "protocol") (Val.str "http")
      (parse_config env getOpt).protocol
    ∧ Resolves (env "AMBARI_VALIDATE_SSL") (getOpt "validate_ssl") (Val.bool false)
      (parse_config env getOpt).validate_ssl
    ∧ Resolves (env "ANSIBLE_USER") (getOpt "ansible_user") Val.none
      (parse_config env getOpt).ansible_user
    ∧ Resolves (env "ANSIBLE_SSH_PASS") (getOpt "ansible_ssh_pass") Val.none
      (parse_config env getOpt).ansible_ssh_pass :=
  ⟨set_config_cases _ _ _, set_config_cases _ _ _, set_config_cases _ _ _,
    set_config_cases _ _ _, set_config_cases _ _ _, set_config_cases _ _ _,
    set_config_cases _ _ _, set_config_cases _ _ _⟩

/-- An environment that sets only the hostname variable. -/
def env_hostname_only : String → Option String :=
  fun k => if k = "AMBARI_HOSTNAME" then some "env-host" else Option.none

/-- A configuration file that provides only a port value. -/
def file_port_only : String → Val := fun k => if k = "port" then Val.int 9999 else Val.none

/-- C1 witness: at a concrete environment and file, the hostname
resolves from the environment, the port from the file, and the
username from the default. -/
theorem parse_config_resolution_witness :
    (parse_config env_hostname_only file_port_only).hostname = Val.str "env-host"
    ∧ (parse_config env_hostname_only file_port_only).port = Val.int 9999
    ∧ (parse_config env_hostname_only file_port_only).username = Val.str "admin" := by
  have h := parse_config_resolution env_hostname_only file_port_only
  exact ⟨h.1.1 "env-host" rfl,
    h.2.1.2.1 (by decide) (by decide),
    h.2.2.2.1.2.2 (by decide) (by decide)⟩

/-- Mapping pyLower over a list of already-lowercase strings is the
identity. -/
theorem map_pyLower_of_lower {l : List String} (h : ∀ n ∈ l, pyLower n = n) :
    l.map pyLower = l := by
  induction l with
  | nil => rfl
  | cons a t ih =>
    simp only [List.map_cons, h a (List.mem_cons_self a t)]
    rw [ih (fun n hn => h n (List.mem_cons_of_mem a hn))]

/-- A client whose service listing carries component records with
mixed-case owning service names. -/
def client_mixed_case : AmbariClient :=
  { clusters := [⟨"demo"⟩]
  , services := fun _ => [⟨"ALL", [⟨"c1", "B"⟩, ⟨"c2", "a"⟩, ⟨"c3", "HDFS"⟩, ⟨"c4", "hdfs"⟩]⟩]
  , serviceComponents := fun _ _ => []
  , clusterHosts := fun _ => []
  , hostFields := fun _ => []
  , hostComponents := fun _ _ => [] }

/-- C2 counterexample: with mixed-case owning service names the
lowercase group-name list is neither sorted nor duplicate-free; here it
evaluates to [b, hdfs, a, hdfs]. -/
theorem get_services_name_mixed_case_cex :
    ¬ (List.Sorted (· ≤ ·) ((get_services_name client_mixed_case "demo").map pyLower)
       ∧ ((get_services_name client_mixed_case "demo").map pyLower).Nodup) := by
  intro h
  exact absurd h.2 (by decide)

/-- C2 (amended): the collected names are the owning service names of
the components (not the nominal listing names), deduplicated and
lexicographically sorted in original case; the group names are their
pyLower images, and when every collected name is already lowercase the
group-name list is sorted and duplicate-free as well. -/
theorem get_services_name_spec (client : AmbariClient) (cluster_name : String) :
    List.Sorted (· ≤ ·) (get_services_name client cluster_name)
    ∧ (get_services_name client cluster_name).Nodup
    ∧ (∀ n, n ∈ get_services_name client cluster_name ↔
        ∃ s, s ∈ client.services cluster_name ∧ ∃ c, c ∈ s.components ∧ c.service_name = n)
    ∧ ((∀ n ∈ get_services_name client cluster_name, pyLower n = n) →
        List.Sorted (· ≤ ·) ((get_services_name client cluster_name).map pyLower)
        ∧ ((get_services_name client cluster_name).map pyLower).Nodup) := by
  refine ⟨sortedSet_sorted _, sortedSet_nodup _, fun n => ?_, fun hlow => ?_⟩
  · rw [get_services_name, mem_sortedSet, mem_collect_service_names]
  · rw [map_pyLower_of_lower hlow]
    exact ⟨sortedSet_sorted _, sortedSet_nodup _⟩

/-- A client whose service listing carries only lowercase service
names. -/
def client_lowercase : AmbariClient :=
  { clusters := [⟨"demo"⟩]
  , services := fun _ =>
      [⟨"hdfs", [⟨"namenode", "hdfs"⟩, ⟨"datanode", "hdfs"⟩]⟩, ⟨"yarn", [⟨"resourcemanager", "yarn"⟩]⟩]
  , serviceComponents := fun _ _ => []
  , clusterHosts := fun _ => []
  , hostFields := fun _ => []
  , hostComponents := fun _ _ => [] }

/-- C2 witness: on a concrete lowercase topology the group-name list is
sorted and duplicate-free. -/
theorem get_services_name_spec_witness :
    List.Sorted (· ≤ ·) ((get_services_name client_lowercase "demo").map pyLower)
    ∧ ((get_services_name client_lowercase "demo").map pyLower).Nodup :=
  (get_services_name_spec client_lowercase "demo").2.2.2 (by decide)

/-- No self-loop edge is ever issued by the component loop of
_populate_groups. -/
theorem component_group_ops_no_self (s g : String) (cs : List String) :
    SinkOp.add_child g g ∉ component_group_ops s cs := by
  induction cs with
  | nil => simp [component_group_ops]
  | cons c rest ih =>
    intro h
    simp only [component_group_ops] at h
    by_cases hne : pyLower s ≠ pyLower c
    · rw [if_pos hne] at h
      rcases List.mem_cons.mp h with h | h
      · exact SinkOp.noConfusion h
      · rcases List.mem_cons.mp h with h | h
        · injection h with h1 h2
          exact hne (h1.symm.trans h2)
        · exact ih h
    · rw [if_neg hne] at h
      rcases List.mem_cons.mp h with h | h
      · exact SinkOp.noConfusion h
      · exact ih h

/-- No self-loop edge is ever issued by _populate_groups. -/
theorem populate_groups_no_self (client : AmbariClient) (cluster_name : String)
    (names : List String) (g : String) :
    SinkOp.add_child g g ∉ populate_groups client cluster_name names := by
  induction names with
  | nil => simp [populate_groups]
  | cons s rest ih =>
    intro h
    simp only [populate_groups] at h
    rcases List.mem_cons.mp h with h | h
    · exact SinkOp.noConfusion h
    · rcases List.mem_append.mp h with h | h
      · exact component_group_ops_no_self s g _ h
      · exact ih h

/-- The component loop creates the component group, and the child edge
exactly under distinct lowercase names. -/
theorem mem_component_group_ops (s : String) (cs : List String) (c : String) (hc : c ∈ cs) :
    SinkOp.add_group (pyLower c) ∈ component_group_ops s cs
    ∧ (pyLower s ≠ pyLower c →
        SinkOp.add_child (pyLower s) (pyLower c) ∈ component_group_ops s cs) := by
  induction cs with
  | nil => cases hc
  | cons c₀ rest ih =>
    rcases List.mem_cons.mp hc with hc | hc
    · subst hc
      constructor
      · simp only [component_group_ops]
        exact List.mem_cons_self _ _
      · intro hne
        simp only [component_group_ops, if_pos hne]
        exact List.mem_cons_of_mem _ (List.mem_cons_self _ _)
    · have h := ih hc
      constructor
      · simp only [component_group_ops]
        by_cases hne : pyLower s ≠ pyLower c₀
        · rw [if_pos hne]
          exact List.mem_cons_of_mem _ (List.mem_cons_of_mem _ h.1)
        · rw [if_neg hne]
          exact List.mem_cons_of_mem _ h.1
      · intro hnec
        simp only [component_group_ops]
        by_cases hne : pyLower s ≠ pyLower c₀
        · rw [if_pos hne]
          exact List.mem_cons_of_mem _ (List.mem_cons_of_mem _ (h.2 hnec))
        · rw [if_neg hne]
          exact List.mem_cons_of_mem _ (h.2 hnec)

/-- Operations of one listed service are part of the _populate_groups
trace. -/
theorem mem_populate_groups (client : AmbariClient) (cluster_name : String)
    {names : List String} {s : String} (hs : s ∈ names) {op : SinkOp}
    (hop : op ∈ component_group_ops s (get_components_name client cluster_name s)) :
    op ∈ populate_groups client cluster_name names := by
  induction names with
  | nil => cases hs
  | cons s₀ rest ih =>
    simp only [populate_groups]
    rcases List.mem_cons.mp hs with h | h
    · subst h
      exact List.mem_cons_of_mem _ (List.mem_append_left _ hop)
    · exact List.mem_cons_of_mem _ (List.mem_append_right _ (ih h))

/-- C3: for every service/component pair the component group is
created; the child edge from the service group exists when the
lowercase names differ, and is never created when they coincide. -/
theorem populate_groups_component_links (client : AmbariClient) (cluster_name : String)
    (services_name : List String) (s c : String)
    (hs : s ∈ services_name) (hc : c ∈ get_components_name client cluster_name s) :
    SinkOp.add_group (pyLower c) ∈ populate_groups client cluster_name services_name
    ∧ (pyLower s ≠ pyLower c →
        SinkOp.add_child (pyLower s) (pyLower c) ∈ populate_groups client cluster_name services_name)
    ∧ (pyLower s = pyLower c →
        SinkOp.add_child (pyLower s) (pyLower c) ∉ populate_groups client cluster_name services_name) := by
  have hmem := mem_component_group_ops s (get_components_name client cluster_name s) c hc
  refine ⟨mem_populate_groups client cluster_name hs hmem.1,
    fun hne => mem_populate_groups client cluster_name hs (hmem.2 hne), fun heq => ?_⟩
  rw [heq]
  exact populate_groups_no_self client cluster_name services_name (pyLower c)

/-- A client that reports the components NAMENODE and HDFS for the
service HDFS. -/
def client_hdfs : AmbariClient :=
  { clusters := [⟨"demo"⟩]
  , services := fun _ => []
  , serviceComponents := fun _ s =>
      if s = "HDFS" then [⟨"NAMENODE", "HDFS"⟩, ⟨"HDFS", "HDFS"⟩] else []
  , clusterHosts := fun _ => []
  , hostFields := fun _ => []
  , hostComponents := fun _ _ => [] }

/-- C3 witness: on a concrete topology the namenode group exists and is
a child of hdfs, while the component named like its service gets a
group but no self edge. -/
theorem populate_groups_component_links_witness :
    SinkOp.add_group (pyLower "NAMENODE") ∈ populate_groups client_hdfs "demo" ["HDFS"]
    ∧ SinkOp.add_child (pyLower "HDFS") (pyLower "NAMENODE")
        ∈ populate_groups client_hdfs "demo" ["HDFS"]
    ∧ SinkOp.add_child (pyLower "HDFS") (pyLower "HDFS")
        ∉ populate_groups client_hdfs "demo" ["HDFS"] := by
  have h := populate_groups_component_links client_hdfs "demo" ["HDFS"] "HDFS" "NAMENODE"
    (by decide) (by decide)
  have h₂ := populate_groups_component_links client_hdfs "demo" ["HDFS"] "HDFS" "HDFS"
    (by decide) (by decide)
  exact ⟨h.1, h.2.1 (by decide), h₂.2.2 rfl⟩

/-- Operations of one listed host are part of the _populate_hosts
trace. -/
theorem mem_populate_hosts (cfg : Config) (client : AmbariClient)
    (svcItems : String → String → List ServiceConfigItem)
    (cluster_name : String) (services_name : List String)
    {hosts_name : List String} {h : String} (hh : h ∈ hosts_name) {op : SinkOp}
    (hop : op ∈ host_ops cfg client svcItems cluster_name services_name h) :
    op ∈ populate_hosts cfg client svcItems cluster_name services_name hosts_name := by
  induction hosts_name with
  | nil => cases hh
  | cons h₀ rest ih =>
    simp only [populate_hosts]
    rcases List.mem_cons.mp hh with h1 | h1
    · subst h1
      exact List.mem_append_left _ hop
    · exact List.mem_append_right _ (ih h1)

/-- Every set_variable issued by the detail-copy loop has a key that
passes the filter. -/
theorem host_detail_ops_set_variable_kept (hn : String) (l : List (String × Val))
    (h' k : String) (v : Val)
    (hmem : SinkOp.set_variable h' k v ∈ host_detail_ops hn l) : field_kept k = true := by
  induction l with
  | nil => cases hmem
  | cons fv rest ih =>
    obtain ⟨f, w⟩ := fv
    simp only [host_detail_ops] at hmem
    by_cases hk : field_kept f = true
    · rw [if_pos hk] at hmem
      rcases List.mem_cons.mp hmem with h1 | h1
      · injection h1 with e1 e2 e3
        rw [e2]
        exact hk
      · exact ih h1
    · rw [if_neg hk] at hmem
      exact ih hmem

/-- The per-component loop issues no set_variable operation. -/
theorem host_component_ops_no_set_variable (hn : String) (cs : List Component)
    (h' k : String) (v : Val) :
    SinkOp.set_variable h' k v ∉ host_component_ops hn cs := by
  induction cs with
  | nil => simp [host_component_ops]
  | cons c rest ih =>
    intro hmem
    simp only [host_component_ops] at hmem
    rcases List.mem_cons.mp hmem with h1 | h1
    · exact SinkOp.noConfusion h1
    · exact ih h1

/-- Every set_variable issued for one host has a key that passes the
filter (the fixed keys configurations, ansible_host, ansible_user and
ansible_ssh_pass all pass it). -/
theorem host_ops_set_variable_kept (cfg : Config) (client : AmbariClient)
    (svcItems : String → String → List ServiceConfigItem)
    (cluster_name : String) (services_name : List String) (hn : String)
    (h' k : String) (v : Val)
    (hmem : SinkOp.set_variable h' k v
      ∈ host_ops cfg client svcItems cluster_name services_name hn) :
    field_kept k = true := by
  simp only [host_ops] at hmem
  rcases List.mem_cons.mp hmem with h1 | hmem
  · exact SinkOp.noConfusion h1
  rcases List.mem_cons.mp hmem with h1 | hmem
  · injection h1 with e1 e2 e3
    rw [e2]
    decide
  rcases List.mem_cons.mp hmem with h1 | hmem
  · injection h1 with e1 e2 e3
    rw [e2]
    decide
  rcases List.mem_append.mp hmem with hmem | hmem
  · rcases List.mem_append.mp hmem with hmem | h1
    · rcases List.mem_append.mp hmem with h1 | h1
      · exact host_detail_ops_set_variable_kept hn _ h' k v h1
      · split at h1
        · rcases List.mem_cons.mp h1 with h2 | h2
          · injection h2 with e1 e2 e3
            rw [e2]
            decide
          · cases h2
        · cases h1
    · split at h1
      · rcases List.mem_cons.mp h1 with h2 | h2
        · injection h2 with e1 e2 e3
          rw [e2]
          decide
        · cases h2
      · cases h1
  · exact absurd hmem (host_component_ops_no_set_variable hn _ h' k v)

/-- Every set_variable issued by _populate_hosts has a key that passes
the filter. -/
theorem populate_hosts_set_variable_kept (cfg : Config) (client : AmbariClient)
    (svcItems : String → String → List ServiceConfigItem)
    (cluster_name : String) (services_name hosts_name : List String)
    (h' k : String) (v : Val)
    (hmem : SinkOp.set_variable h' k v
      ∈ populate_hosts cfg client svcItems cluster_name services_name hosts_name) :
    field_kept k = true := by
  induction hosts_name with
  | nil => cases hmem
  | cons h₀ rest ih =>
    simp only [populate_hosts] at hmem
    rcases List.mem_append.mp hmem with h1 | h1
    · exact host_ops_set_variable_kept cfg client svcItems cluster_name services_name h₀ h' k v h1
    · exact ih h1

/-- A detail field that passes the filter is copied by the detail
loop. -/
theorem mem_host_detail_ops (hn : String) (l : List (String × Val)) (f : String) (v : Val)
    (hf : (f, v) ∈ l) (hk : field_kept f = true) :
    SinkOp.set_variable hn f v ∈ host_detail_ops hn l := by
  induction l with
  | nil => cases hf
  | cons fv rest ih =>
    rcases List.mem_cons.mp hf with h1 | h1
    · subst h1
      simp only [host_detail_ops, if_pos hk]
      exact List.mem_cons_self _ _
    · obtain ⟨f₀, w₀⟩ := fv
      simp only [host_detail_ops]
      by_cases hk₀ : field_kept f₀ = true
      · rw [if_pos hk₀]
        exact List.mem_cons_of_mem _ (ih h1)
      · rw [if_neg hk₀]
        exact ih h1

/-- Every installed component of a host yields its add_host operation
in the per-component loop. -/
theorem mem_host_component_ops (hn : String) (cs : List Component) (comp : Component)
    (hc : comp ∈ cs) :
    SinkOp.add_host hn (some (pyLower comp.component_name)) (some [("toto", Val.str "tata")])
      ∈ host_component_ops hn cs := by
  induction cs with
  | nil => cases hc
  | cons c rest ih =>
    rcases List.mem_cons.mp hc with h1 | h1
    · subst h1
      simp only [host_component_ops]
      exact List.mem_cons_self _ _
    · simp only [host_component_ops]
      exact List.mem_cons_of_mem _ (ih h1)

/-- C4: every discovered host is added, gets ansible_host bound to its
own name, and gets a configurations variable holding the computed
bundle, which is the empty mapping when the service list is empty. -/
theorem populate_hosts_core_vars (cfg : Config) (client : AmbariClient)
    (svcItems : String → String → List ServiceConfigItem)
    (cluster_name : String) (services_name hosts_name : List String) (h : String)
    (hh : h ∈ hosts_name) :
    SinkOp.add_host h Option.none Option.none
        ∈ populate_hosts cfg client svcItems cluster_name services_name hosts_name
    ∧ SinkOp.set_variable h "ansible_host" (Val.str h)
        ∈ populate_hosts cfg client svcItems cluster_name services_name hosts_name
    ∧ SinkOp.set_variable h "configurations"
        (Val.dict (host_configurations svcItems cluster_name services_name))
        ∈ populate_hosts cfg client svcItems cluster_name services_name hosts_name
    ∧ (services_name = [] →
        SinkOp.set_variable h "configurations" (Val.dict [])
          ∈ populate_hosts cfg client svcItems cluster_name services_name hosts_name) := by
  have h1 : SinkOp.add_host h Option.none Option.none
      ∈ host_ops cfg client svcItems cluster_name services_name h := by
    simp only [host_ops]
    exact List.mem_cons_self _ _
  have h2 : SinkOp.set_variable h "configurations"
      (Val.dict (host_configurations svcItems cluster_name services_name))
      ∈ host_ops cfg client svcItems cluster_name services_name h := by
    simp only [host_ops]
    exact List.mem_cons_of_mem _ (List.mem_cons_self _ _)
  have h3 : SinkOp.set_variable h "ansible_host" (Val.str h)
      ∈ host_ops cfg client svcItems cluster_name services_name h := by
    simp only [host_ops]
    exact List.mem_cons_of_mem _ (List.mem_cons_of_mem _ (List.mem_cons_self _ _))
  refine ⟨mem_populate_hosts cfg client svcItems cluster_name services_name hh h1,
    mem_populate_hosts cfg client svcItems cluster_name services_name hh h3,
    mem_populate_hosts cfg client svcItems cluster_name services_name hh h2,
    fun he => ?_⟩
  subst he
  exact mem_populate_hosts cfg client svcItems cluster_name [] hh h2

/-- The configuration resolved from empty environment and empty file:
all defaults. -/
def cfg_defaults : Config := parse_config env_empty (fun _ => Val.none)

/-- A client with one host node1 carrying detail fields on both sides
of the copy filter and one installed component. -/
def client_node : AmbariClient :=
  { clusters := [⟨"demo"⟩]
  , services := fun _ => []
  , serviceComponents := fun _ _ => []
  , clusterHosts := fun _ => [⟨"node1", "HEALTHY"⟩]
  , hostFields := fun _ =>
      [ ("rack_info", Val.str "/default-rack")
      , ("host_name", Val.str "node1")
      , ("last_heartbeat_time", Val.int 0)
      , ("desired_configs", Val.dict []) ]
  , hostComponents := fun _ _ => [⟨"NAMENODE", "HDFS"⟩] }

/-- Service-configuration lookup data for an empty service list. -/
def svcItems_empty : String → String → List ServiceConfigItem := fun _ _ => []

/-- C4 witness: the concrete host node1 with no services gets added,
gets ansible_host node1, and gets the empty configurations mapping. -/
theorem populate_hosts_core_vars_witness :
    SinkOp.add_host "node1" Option.none Option.none
        ∈ populate_hosts cfg_defaults client_node svcItems_empty "demo" [] ["node1"]
    ∧ SinkOp.set_variable "node1" "ansible_host" (Val.str "node1")
        ∈ populate_hosts cfg_defaults client_node svcItems_empty "demo" [] ["node1"]
    ∧ SinkOp.set_variable "node1" "configurations" (Val.dict [])
        ∈ populate_hosts cfg_defaults client_node svcItems_empty "demo" [] ["node1"] := by
  have h := populate_hosts_core_vars cfg_defaults client_node svcItems_empty "demo" []
    ["node1"] "node1" (List.mem_cons_self _ _)
  exact ⟨h.1, h.2.1, h.2.2.2 rfl⟩

/-- C5: a detail field of a discovered host is copied onto the host
when it passes the filter, and every set_variable issued by
_populate_hosts carries a key that passes the filter, so a field whose
name starts with host or last or equals desired_configs never appears
as a host variable. -/
theorem populate_hosts_detail_filter (cfg : Config) (client : AmbariClient)
    (svcItems : String → String → List ServiceConfigItem)
    (cluster_name : String) (services_name hosts_name : List String)
    (h f : String) (v : Val) (hh : h ∈ hosts_name) (hf : (f, v) ∈ client.hostFields h) :
    (field_kept f = true →
      SinkOp.set_variable h f v
        ∈ populate_hosts cfg client svcItems cluster_name services_name hosts_name)
    ∧ (∀ h' k w, SinkOp.set_variable h' k w
        ∈ populate_hosts cfg client svcItems cluster_name services_name hosts_name →
        field_kept k = true) := by
  constructor
  · intro hk
    refine mem_populate_hosts cfg client svcItems cluster_name services_name hh ?_
    simp only [host_ops]
    refine List.mem_cons_of_mem _ (List.mem_cons_of_mem _ (List.mem_cons_of_mem _ ?_))
    exact List.mem_append_left _ (List.mem_append_left _
      (List.mem_append_left _ (mem_host_detail_ops h (client.hostFields h) f v hf hk)))
  · intro h' k w hmem
    exact populate_hosts_set_variable_kept cfg client svcItems cluster_name services_name
      hosts_name h' k w hmem

/-- C5 witness: on the concrete host node1 the field rack_info is
copied, and its filtered fields pass through the second conjunct
vacuously checked at the copied operation. -/
theorem populate_hosts_detail_filter_witness :
    SinkOp.set_variable "node1" "rack_info" (Val.str "/default-rack")
      ∈ populate_hosts cfg_defaults client_node svcItems_empty "demo" [] ["node1"] :=
  (populate_hosts_detail_filter cfg_defaults client_node svcItems_empty "demo" [] ["node1"]
    "node1" "rack_info" (Val.str "/default-rack") (List.mem_cons_self _ _)
    (List.Mem.head _)).1 (by decide)

/-- C10: each installed component of a discovered host yields an
add_host of that host into the lowercase component group passing the
fixed variables mapping toto bound to tata. -/
theorem populate_hosts_toto_group_var (cfg : Config) (client : AmbariClient)
    (svcItems : String → String → List ServiceConfigItem)
    (cluster_name : String) (services_name hosts_name : List String)
    (h : String) (comp : Component) (hh : h ∈ hosts_name)
    (hc : comp ∈ client.hostComponents cluster_name h) :
    SinkOp.add_host h (some (pyLower comp.component_name)) (some [("toto", Val.str "tata")])
      ∈ populate_hosts cfg client svcItems cluster_name services_name hosts_name := by
  refine mem_populate_hosts cfg client svcItems cluster_name services_name hh ?_
  simp only [host_ops]
  refine List.mem_cons_of_mem _ (List.mem_cons_of_mem _ (List.mem_cons_of_mem _ ?_))
  exact List.mem_append_right _
    (mem_host_component_ops h (client.hostComponents cluster_name h) comp hc)

/-- C10 witness: the concrete host node1 with installed component
NAMENODE is re-added into group namenode with the toto variable. -/
theorem populate_hosts_toto_group_var_witness :
    SinkOp.add_host "node1" (some (pyLower "NAMENODE")) (some [("toto", Val.str "tata")])
      ∈ populate_hosts cfg_defaults client_node svcItems_empty "demo" [] ["node1"] :=
  populate_hosts_toto_group_var cfg_defaults client_node svcItems_empty "demo" [] ["node1"]
    "node1" ⟨"NAMENODE", "HDFS"⟩ (List.mem_cons_self _ _) (List.Mem.head _)

/-- A client whose cluster listing is empty. -/
def client_no_clusters : AmbariClient :=
  { clusters := []
  , services := fun _ => []
  , serviceComponents := fun _ _ => []
  , clusterHosts := fun _ => []
  , hostFields := fun _ => []
  , hostComponents := fun _ _ => [] }

/-- C6: evaluating _get_cluster_name on the empty cluster listing: the
for loop falls through and the function returns None without raising
anything, and the run keeps going with an absent cluster name; a
NoClusterFoundError abort exists nowhere in the code. -/
theorem get_cluster_name_empty_returns_none :
    get_cluster_name client_no_clusters = Option.none := rfl

/-- C7 counterexample: status 304 is not 2xx, but requests treats every
status below 400 as ok, so the lookup returns the parsed body instead
of failing. -/
theorem get_service_current_configuration_304_cex :
    ¬ (200 ≤ 304 ∧ 304 ≤ 299)
    ∧ get_service_current_configuration ⟨304, Val.dict []⟩ = Except.ok (Val.dict []) :=
  ⟨by decide, rfl⟩

/-- response.ok is false exactly on the raise range of
raise_for_status. -/
theorem response_ok_false_iff (r : HttpResponse) :
    response_ok r = false ↔ (400 ≤ r.status ∧ r.status < 600) := by
  simp [response_ok]

/-- C7 (amended): the service-configuration lookup fails with an error
carrying the status and the body exactly when the status is in
[400, 600), the non-ok range of requests; any other status, all 2xx
included, returns the parsed body. -/
theorem get_service_current_configuration_spec (r : HttpResponse) :
    (400 ≤ r.status ∧ r.status < 600 →
      get_service_current_configuration r = Except.error ⟨r.status, r.body⟩)
    ∧ (¬ (400 ≤ r.status ∧ r.status < 600) →
      get_service_current_configuration r = Except.ok r.body) := by
  constructor
  · intro h
    have hok := (response_ok_false_iff r).mpr h
    simp [get_service_current_configuration, hok]
  · intro h
    have hok : response_ok r = true := by
      cases hv : response_ok r
      · exact absurd ((response_ok_false_iff r).mp hv) h
      · rfl
    simp [get_service_current_configuration, hok]

/-- C7 witness: a 404 response fails with an error carrying 404 and the
body, and a 200 response returns the parsed body. -/
theorem get_service_current_configuration_spec_witness :
    get_service_current_configuration ⟨404, Val.str "not found"⟩
        = Except.error ⟨404, Val.str "not found"⟩
    ∧ get_service_current_configuration ⟨200, Val.dict []⟩ = Except.ok (Val.dict []) :=
  ⟨(get_service_current_configuration_spec ⟨404, Val.str "not found"⟩).1 (by decide),
    (get_service_current_configuration_spec ⟨200, Val.dict []⟩).2 (by decide)⟩

/-- A resolved configuration with validate_ssl True. -/
def cfg_ssl_true : Config :=
  { hostname := Val.str "ambari-host.local"
  , port := Val.int 8443
  , username := Val.str "admin"
  , password := Val.str "admin"
  , protocol := Val.str "https"
  , validate_ssl := Val.bool true
  , ansible_user := Val.none
  , ansible_ssh_pass := Val.none }

/-- C8 counterexample: with validate_ssl resolved to True the
service-configuration request still carries verify = false, so this
request does not verify certificates although validate_ssl is true. -/
theorem service_config_request_verify_cex :
    cfg_ssl_true.validate_ssl = Val.bool true
    ∧ (service_config_request cfg_ssl_true "demo" "HDFS").verify = false :=
  ⟨rfl, rfl⟩

/-- C8 (amended): the Ambari client is constructed with the resolved
validate_ssl value, gating verification for the facade requests issued
through it, while the direct service-configuration request is always
issued with verify = false regardless of validate_ssl. -/
theorem tls_verification_spec (cfg : Config) (cluster_name service_name : String) :
    (initialize_client cfg).validate_ssl = cfg.validate_ssl
    ∧ (service_config_request cfg cluster_name service_name).verify = false :=
  ⟨rfl, rfl⟩

/-- C9: _get_hosts_name returns exactly the names of all hosts of the
listing, lexicographically sorted and deduplicated; the status field is
never read, so replacing every status by anything leaves the result
unchanged and a host that is not HEALTHY is included like a healthy
one. -/
theorem get_hosts_name_spec (client : AmbariClient) (cluster_name : String) :
    List.Sorted (· ≤ ·) (get_hosts_name client cluster_name)
    ∧ (get_hosts_name client cluster_name).Nodup
    ∧ (∀ n, n ∈ get_hosts_name client cluster_name ↔
        ∃ hrec, hrec ∈ client.clusterHosts cluster_name ∧ hrec.host_name = n)
    ∧ (∀ f : HostRec → String,
        get_hosts_name
          { client with clusterHosts :=
              fun cn => (client.clusterHosts cn).map (fun hrec => ⟨hrec.host_name, f hrec⟩) }
          cluster_name
        = get_hosts_name client cluster_name) := by
  refine ⟨sortedSet_sorted _, sortedSet_nodup _, fun n => ?_, fun f => ?_⟩
  · rw [get_hosts_name, mem_sortedSet, List.mem_map]
  · simp only [get_hosts_name, List.map_map]
    rfl
